import Mathlib

/-
Verification of the change-tracking core of the device_config repository.

The repository has two Python modules:
  * diff.py          — record differ used for two-commit comparison
                       (is_same, get_changes);
  * find_changes.py  — history walker (is_same, get_changes, find_renames,
                       print_item_changes for the single-item Mode A,
                       print_all_changes for the full-history Mode B).

Everything below is a direct shallow embedding of those functions.  JSON
scalar values are embedded as `Value`; Python dicts become insertion-ordered
association lists with the dict operations `dlookup`, `dkeys`, `dhasKey`,
`dinsert`.  I/O glue (git access, argument parsing, printing) is modelled by
passing snapshots/diff lines in and returning event lists; an uncaught
Python exception is modelled as `none` / `Option.none` results.
-/

set_option maxRecDepth 8000

namespace DeviceConfig

/-- Scalar attribute values of the device database JSON: strings, integers,
booleans and null. -/
inductive Value where
  | str (s : String)
  | int (n : Int)
  | bool (b : Bool)
  | null
deriving DecidableEq

/-- Python `str(v)` on a scalar value. -/
def pyStr : Value → String
  | .str s => s
  | .int n => toString n
  | .bool true => "True"
  | .bool false => "False"
  | .null => "None"

/-- Python `v1 == v2` on scalar values; as in Python, booleans compare equal
to the corresponding integers, and all other cross-type comparisons are
unequal. -/
def pyEq : Value → Value → Bool
  | .str a, .str b => a == b
  | .int a, .int b => a == b
  | .bool a, .bool b => a == b
  | .bool a, .int b => (if a then (1 : Int) else 0) == b
  | .int a, .bool b => a == (if b then (1 : Int) else 0)
  | .null, .null => true
  | _, _ => false

/-- First-match lookup in an insertion-ordered mapping (Python `d[k]` /
`d.get(k)`). -/
def dlookup {α : Type} : List (String × α) → String → Option α
  | [], _ => none
  | (a, v) :: rest, k => if a = k then some v else dlookup rest k

/-- Iteration order of a Python dict's keys. -/
def dkeys {α : Type} (d : List (String × α)) : List String :=
  d.map Prod.fst

/-- Python `k in d`. -/
def dhasKey {α : Type} (d : List (String × α)) (k : String) : Bool :=
  (dlookup d k).isSome

/-- Python `d[k] = v`: overwrite the existing binding in place if the key is
present, otherwise append the new binding at the end. -/
def dinsert {α : Type} : List (String × α) → String → α → List (String × α)
  | [], k, v => [(k, v)]
  | (a, w) :: rest, k, v =>
    if a = k then (a, v) :: rest else (a, w) :: dinsert rest k v

/-- Python `d[k]` used under the guard that `k` is a key of `d`. -/
def dget {α : Type} (dflt : α) (d : List (String × α)) (k : String) : α :=
  (dlookup d k).getD dflt

/-- A record of one device/item: flat mapping from attribute name to scalar
value. -/
abbrev Record := List (String × Value)

/-- Python `d[k]` on a record, under the guard that `k` is a key of `d`. -/
def getv (d : Record) (k : String) : Value :=
  dget Value.null d k

/-- Python `set(d1) == set(d2)` on the key sets of two records. -/
def sameKeySet (d1 d2 : Record) : Bool :=
  (dkeys d1).all (fun k => dhasKey d2 k) && (dkeys d2).all (fun k => dhasKey d1 k)

namespace Diff

/-- diff.py `is_same`: same key set, and every value equal after conversion
to its string representation. -/
def is_same (d1 d2 : Record) : Bool :=
  if !(sameKeySet d1 d2) then false
  else (dkeys d1).all (fun k => pyStr (getv d1 k) == pyStr (getv d2 k))

/-- diff.py `get_changes`: yields ("added", key, d2[key]) for keys of d2 not
in d1, ("deleted", key, None) for keys of d1 not in d2, and
("changed", key, d2[key]) for common keys whose values differ under native
Python equality. -/
def get_changes (d1 d2 : Record) : List (String × String × Option Value) :=
  ((dkeys d2).filter (fun k => !(dhasKey d1 k))).map
    (fun k => ("added", k, some (getv d2 k))) ++
  ((dkeys d1).filter (fun k => !(dhasKey d2 k))).map
    (fun k => ("deleted", k, (none : Option Value))) ++
  ((dkeys d2).filter (fun k => dhasKey d1 k && !(pyEq (getv d1 k) (getv d2 k)))).map
    (fun k => ("changed", k, some (getv d2 k)))

end Diff

namespace FindChanges

/-- find_changes.py `is_same`: same key set, and every value equal under
native Python equality (no string coercion). -/
def is_same (d1 d2 : Record) : Bool :=
  if !(sameKeySet d1 d2) then false
  else (dkeys d1).all (fun k => pyEq (getv d1 k) (getv d2 k))

/-- find_changes.py `get_changes`: yields (key, f"{d2[key]}") for added keys,
(key, "(deleted key)") for removed keys, and (key, f"{d1[key]} -> {d2[key]}")
for common keys whose values differ under native Python equality. -/
def get_changes (d1 d2 : Record) : List (String × String) :=
  ((dkeys d2).filter (fun k => !(dhasKey d1 k))).map
    (fun k => (k, pyStr (getv d2 k))) ++
  ((dkeys d1).filter (fun k => !(dhasKey d2 k))).map
    (fun k => (k, "(deleted key)")) ++
  ((dkeys d2).filter (fun k => dhasKey d1 k && !(pyEq (getv d1 k) (getv d2 k)))).map
    (fun k => (k, pyStr (getv d1 k) ++ " -> " ++ pyStr (getv d2 k)))

/-- Python `s1.startswith(s2)` on explicit character lists: does the second
list lead with the first. -/
def charsLeadWith : List Char → List Char → Bool
  | [], _ => true
  | _ :: _, [] => false
  | p :: ps, c :: cs => p == c && charsLeadWith ps cs

/-- Python `s.lstrip(cs)`: drop leading characters that belong to `cs`. -/
def lstripChars (cs : List Char) (s : List Char) : List Char :=
  s.dropWhile (fun c => cs.contains c)

/-- Python `s.strip(cs)`: drop characters belonging to `cs` from both ends. -/
def stripChars (cs : List Char) (s : List Char) : List Char :=
  ((s.dropWhile (fun c => cs.contains c)).reverse.dropWhile
    (fun c => cs.contains c)).reverse

/-- Python `s.split(sep, 1)` viewed as the text before and after the first
occurrence of `sep`; `none` when `sep` does not occur (so that indexing the
second part raises in Python). -/
def findSplit (sep : List Char) : List Char → Option (List Char × List Char)
  | [] => if charsLeadWith sep [] then some ([], ([] : List Char).drop sep.length) else none
  | c :: rest =>
    if charsLeadWith sep (c :: rest) then some ([], (c :: rest).drop sep.length)
    else (findSplit sep rest).map (fun p => (c :: p.1, p.2))

/-- Character set stripped by `line.lstrip('- "')`. -/
def dashGap : List Char := ['-', ' ', '"']

/-- Character set stripped by `next_line.lstrip('+ "')`. -/
def plusGap : List Char := ['+', ' ', '"']

/-- The text `'name"'` that the stripped line must start with. -/
def nameMark : List Char := ['n', 'a', 'm', 'e', '"']

/-- Character set stripped by `.strip('":,')` around extracted names. -/
def valGap : List Char := ['"', ':', ',']

/-- The separator `": "` used by `line.split(": ", 1)`. -/
def sepChars : List Char := [':', ' ']

/-- Outcome of one iteration of the `find_renames` loop body on a
(line, next_line) pair: the pair is skipped by one of the `continue`
guards, or extraction raises (no `": "` in a guarded line), or an
(old_name, new_name) pair is extracted. -/
inductive PairResult where
  | skip
  | crash
  | rename (oldName newName : String)
deriving DecidableEq

/-- One iteration of the `find_renames` loop body of find_changes.py. -/
def processPair (line nline : String) : PairResult :=
  if !(charsLeadWith ['-'] line.data) || !(charsLeadWith ['+'] nline.data) then
    .skip
  else if !(charsLeadWith nameMark (lstripChars dashGap line.data)) then
    .skip
  else if !(charsLeadWith nameMark (lstripChars plusGap nline.data)) then
    .skip
  else
    match findSplit sepChars line.data, findSplit sepChars nline.data with
    | some p, some q =>
      .rename (String.mk (stripChars valGap p.2)) (String.mk (stripChars valGap q.2))
    | _, _ => .crash

/-- Python `zip(lines[::2], lines[1::2])`: consecutive pairs at stride two. -/
def stridePairs : List String → List (String × String)
  | [] => []
  | [_] => []
  | a :: b :: rest => (a, b) :: stridePairs rest

/-- The accumulator loop of `find_renames`; `none` models an uncaught
exception while extracting a name. -/
def findRenamesAux (acc : List (String × String)) :
    List (String × String) → Option (List (String × String))
  | [] => some acc
  | (l, nl) :: rest =>
    match processPair l nl with
    | .skip => findRenamesAux acc rest
    | .crash => none
    | .rename a b => findRenamesAux (if a ≠ b then dinsert acc a b else acc) rest

/-- find_changes.py `find_renames`, applied to the raw diff text already
split into lines. -/
def find_renames (lines : List String) : Option (List (String × String)) :=
  findRenamesAux [] (stridePairs lines)

/-- The (old_name, new_name) pair a stride pair contributes, when it passes
all the guards and the two names differ. -/
def validRename (p : String × String) : Option (String × String) :=
  match processPair p.1 p.2 with
  | .rename a b => if a ≠ b then some (a, b) else none
  | _ => none

/-- The new name recorded for old name `o` by the last contributing stride
pair, if any: this is the binding the `renames[old_name] = new_name` dict
assignment leaves behind. -/
def lastRename (o : String) : List (String × String) → Option String
  | [] => none
  | p :: rest =>
    match lastRename o rest with
    | some n => some n
    | none =>
      match validRename p with
      | some q => if q.1 = o then some q.2 else none
      | none => none

/-- One historical commit as the walker sees it: its timestamp and message,
the raw diff lines of db.json against its parent, and the snapshot keyed by
item name that iter_db_changes builds from db.json. -/
structure Commit where
  timestamp : String
  message : String
  diffLines : List String
  snapshot : List (String × Record)

/-- Events printed by Mode B (print_all_changes): a detected rename, a
tracked item missing from the current snapshot, or one attribute-level
change line for an item. -/
inductive Event where
  | rename (oldName newName : String)
  | deletedItem (item : String)
  | attrChange (item key change : String)
deriving DecidableEq

/-- The rename loop of print_all_changes: for each detected rename print the
rename event and execute `last_by_name[new] = last_by_name[old]`; `none`
models the KeyError raised when the old name is not tracked. -/
def renamePhase :
    List (String × Record) → List (String × String) →
    Option (List Event × List (String × Record))
  | m, [] => some ([], m)
  | m, (o, n) :: rest =>
    match dlookup m o with
    | none => none
    | some r =>
      match renamePhase (dinsert m n r) rest with
      | none => none
      | some (evs, m2) => some (Event.rename o n :: evs, m2)

/-- The body of the `for item in last_by_name` loop of print_all_changes for
one item: a Deleted event when the item is absent from the snapshot,
otherwise one attribute-change event per reported change whose key is not in
skip_keys. -/
def itemEvents (skip : List String) (m snap : List (String × Record))
    (item : String) : List Event :=
  match dlookup snap item with
  | none => [Event.deletedItem item]
  | some r2 =>
    (get_changes (dget [] m item) r2).filterMap
      (fun p => if skip.contains p.1 then none else some (Event.attrChange item p.1 p.2))

/-- The whole `for item in last_by_name` loop of print_all_changes, iterated
over the keys of the post-rename rolling map. -/
def itemPhase (skip : List String) (m snap : List (String × Record)) : List Event :=
  (dkeys m).flatMap (itemEvents skip m snap)

/-- Processing of one commit inside print_all_changes: find_renames, the
rename loop, the per-item loop, then `last_by_name = by_name` (the rolling
map is replaced wholesale by the current snapshot). -/
def commitStep (skip : List String) (last : List (String × Record)) (c : Commit) :
    Option (List Event × List (String × Record)) :=
  match find_renames c.diffLines with
  | none => none
  | some rs =>
    match renamePhase last rs with
    | none => none
    | some (revs, m2) =>
      some (revs ++ itemPhase skip m2 c.snapshot, c.snapshot)

/-- find_changes.py `print_all_changes` (Mode B) over an explicit commit
list, returning the events of each commit; `none` models an uncaught
exception. -/
def print_all_changes (skip : List String) :
    List (String × Record) → List Commit → Option (List (List Event))
  | _, [] => some []
  | last, c :: rest =>
    match commitStep skip last c with
    | none => none
    | some (evs, last2) =>
      match print_all_changes skip last2 rest with
      | none => none
      | some out => some (evs :: out)

/-- find_changes.py `print_item_changes` (Mode A) over an explicit commit
list: skip commits where the item is absent; otherwise diff against the last
seen record and, only when there are changes, emit a timestamped block and
update the last-seen record. -/
def print_item_changes (item : String) :
    Record → List Commit → List (String × List (String × String))
  | _, [] => []
  | last, c :: rest =>
    match dlookup c.snapshot item with
    | none => print_item_changes item last rest
    | some r2 =>
      let changed := get_changes last r2
      if changed.isEmpty then print_item_changes item last rest
      else (c.timestamp, changed) :: print_item_changes item r2 rest

end FindChanges

/-- Scenario commit S1 of the spec: snapshot x ↦ (name ↦ "x", v ↦ 1). -/
def commitS1 : FindChanges.Commit :=
  ⟨"t1", "m1", [], [("x", [("name", Value.str "x"), ("v", Value.int 1)])]⟩

/-- Scenario commit S2 of the spec: snapshot x ↦ (name ↦ "x", v ↦ 2). -/
def commitS2 : FindChanges.Commit :=
  ⟨"t2", "m2", [], [("x", [("name", Value.str "x"), ("v", Value.int 2)])]⟩

/-- Scenario commit S3 of the spec: empty snapshot (x deleted). -/
def commitS3 : FindChanges.Commit :=
  ⟨"t3", "m3", [], []⟩

/-- Walk commit in which item x first appears. -/
def commitD1 : FindChanges.Commit :=
  ⟨"u1", "m", [], [("x", [("name", Value.str "x")])]⟩

/-- Walk commit in which item x is absent for the first time. -/
def commitD2 : FindChanges.Commit :=
  ⟨"u2", "m", [], []⟩

/-- Walk commit in which item x is still absent. -/
def commitD3 : FindChanges.Commit :=
  ⟨"u3", "m", [], []⟩

/-- A raw diff whose deleted/added name pair sits at lines 1 and 2, i.e. at
an odd stride offset. -/
def cexDiffLines : List String :=
  ["ctx", "-    \"name\": \"old_x\",", "+    \"name\": \"new_x\","]

/-- A raw diff whose deleted/added name pair sits at lines 0 and 1, aligned
with the stride-two pairing of find_renames. -/
def alignedDiffLines : List String :=
  ["-  \"name\": \"a\",", "+  \"name\": \"b\","]

/-! Basic lemmas about the dict embedding and Python equality. -/

theorem bool_eq_of_iff {a b : Bool} (h : a = true ↔ b = true) : a = b := by
  cases a <;> cases b <;> revert h <;> decide

theorem beq_comm_lawful {α : Type} [BEq α] [LawfulBEq α] (a b : α) :
    (a == b) = (b == a) := by
  by_cases h : a = b
  · subst h; rfl
  · rw [beq_false_of_ne h, beq_false_of_ne (Ne.symm h)]

theorem pyEq_refl (v : Value) : pyEq v v = true := by
  cases v with
  | str s => simp [pyEq]
  | int n => simp [pyEq]
  | bool b => cases b <;> simp [pyEq]
  | null => rfl

theorem pyEq_comm (a b : Value) : pyEq a b = pyEq b a := by
  cases a <;> cases b <;> simp only [pyEq] <;> first
    | rfl
    | exact beq_comm_lawful _ _

theorem dhasKey_iff_mem {α : Type} (d : List (String × α)) (k : String) :
    dhasKey d k = true ↔ k ∈ dkeys d := by
  induction d with
  | nil => simp [dhasKey, dlookup, dkeys]
  | cons p rest ih =>
    obtain ⟨a, v⟩ := p
    by_cases h : a = k
    · subst h
      simp [dhasKey, dlookup, dkeys]
    · have h2 : k ≠ a := Ne.symm h
      simp only [dhasKey, dlookup, dkeys, List.map_cons, List.mem_cons, if_neg h]
      simp only [dhasKey, dkeys] at ih
      rw [ih]
      simp [h2]

theorem dlookup_dinsert {α : Type} (m : List (String × α)) (k x : String) (v : α) :
    dlookup (dinsert m k v) x = if x = k then some v else dlookup m x := by
  induction m with
  | nil =>
    by_cases h : x = k
    · subst h; simp [dinsert, dlookup]
    · have h2 : ¬k = x := fun hh => h hh.symm
      simp [dinsert, dlookup, h, h2]
  | cons p rest ih =>
    obtain ⟨a, w⟩ := p
    by_cases hak : a = k
    · subst hak
      by_cases hxa : a = x
      · subst hxa; simp [dinsert, dlookup]
      · have h2 : ¬x = a := fun hh => hxa hh.symm
        simp [dinsert, dlookup, hxa, h2]
    · by_cases hxa : a = x
      · subst hxa
        simp [dinsert, dlookup, hak]
      · simp [dinsert, dlookup, hak, hxa, ih]

theorem dhasKey_dinsert_of {α : Type} (m : List (String × α)) (a k : String) (v : α)
    (h : dhasKey m k = true) : dhasKey (dinsert m a v) k = true := by
  unfold dhasKey at h ⊢
  rw [dlookup_dinsert]
  by_cases hk : k = a
  · simp [hk]
  · simpa [hk] using h

theorem sameKeySet_comm (d1 d2 : Record) : sameKeySet d1 d2 = sameKeySet d2 d1 := by
  unfold sameKeySet
  exact Bool.and_comm _ _

theorem all_swap (l1 l2 : List String) (p q : String → Bool)
    (hmem : ∀ k, k ∈ l1 ↔ k ∈ l2) (hpq : ∀ k, p k = q k) :
    l1.all p = l2.all q := by
  apply bool_eq_of_iff
  simp only [List.all_eq_true]
  constructor
  · intro h k hk
    rw [← hpq k]
    exact h k ((hmem k).mpr hk)
  · intro h k hk
    rw [hpq k]
    exact h k ((hmem k).mp hk)

/-! Claim theorems. -/

/-- C9: for every pair of records d1, d2, is_same(d1, d2) equals
is_same(d2, d1), for the differ of diff.py and for the differ of
find_changes.py alike. -/
theorem is_same_symmetric : ∀ d1 d2 : Record,
    Diff.is_same d1 d2 = Diff.is_same d2 d1 ∧
    FindChanges.is_same d1 d2 = FindChanges.is_same d2 d1 := by
  intro d1 d2
  cases hs : sameKeySet d1 d2 with
  | false =>
    have hs2 : sameKeySet d2 d1 = false := by rw [← sameKeySet_comm]; exact hs
    constructor <;> simp [Diff.is_same, FindChanges.is_same, hs, hs2]
  | true =>
    have hs2 : sameKeySet d2 d1 = true := by rw [← sameKeySet_comm]; exact hs
    have hx := hs
    unfold sameKeySet at hx
    rw [Bool.and_eq_true, List.all_eq_true, List.all_eq_true] at hx
    have hmem : ∀ k, k ∈ dkeys d1 ↔ k ∈ dkeys d2 := by
      intro k
      constructor
      · intro hk; exact (dhasKey_iff_mem d2 k).mp (hx.1 k hk)
      · intro hk; exact (dhasKey_iff_mem d1 k).mp (hx.2 k hk)
    constructor
    · simp only [Diff.is_same, hs, hs2, Bool.not_true, Bool.false_eq_true,
        if_false]
      exact all_swap _ _ _ _ hmem (fun k => beq_comm_lawful _ _)
    · simp only [FindChanges.is_same, hs, hs2, Bool.not_true, Bool.false_eq_true,
        if_false]
      exact all_swap _ _ _ _ hmem (fun k => pyEq_comm _ _)

/-- C3 counterexample: find_changes.py defines an is_same/get_changes pair
as well, and its is_same compares values with native equality, so on
d1 = ("a" ↦ 1), d2 = ("a" ↦ "1") it returns false, not true — while its
get_changes still reports key "a" as changed. -/
theorem coerced_equality_cex :
    FindChanges.is_same [("a", Value.int 1)] [("a", Value.str "1")] = false ∧
    FindChanges.get_changes [("a", Value.int 1)] [("a", Value.str "1")] =
      [("a", "1 -> 1")] := by decide

/-- C3 amended: on d1 = ("a" ↦ 1), d2 = ("a" ↦ "1") the diff.py pair
diverges as the claim says — is_same is true under string coercion while
get_changes emits a Changed event for "a" under native equality — but the
find_changes.py is_same uses native equality and returns false on the same
records (its get_changes still reports "a" changed). -/
theorem coerced_equality_divergence :
    Diff.is_same [("a", Value.int 1)] [("a", Value.str "1")] = true ∧
    Diff.get_changes [("a", Value.int 1)] [("a", Value.str "1")] =
      [("changed", "a", some (Value.str "1"))] ∧
    FindChanges.is_same [("a", Value.int 1)] [("a", Value.str "1")] = false ∧
    FindChanges.get_changes [("a", Value.int 1)] [("a", Value.str "1")] =
      [("a", "1 -> 1")] := by decide

/-- C7: for every record d, get_changes(d, d) emits no events, for the
differ of diff.py and for the differ of find_changes.py alike. -/
theorem get_changes_self_empty : ∀ d : Record,
    Diff.get_changes d d = [] ∧ FindChanges.get_changes d d = [] := by
  intro d
  have h1 : ((dkeys d).filter (fun k => !(dhasKey d k))) = [] := by
    rw [List.filter_eq_nil_iff]
    intro k hk
    simp [(dhasKey_iff_mem d k).mpr hk]
  have h2 : ((dkeys d).filter
      (fun k => dhasKey d k && !(pyEq (getv d k) (getv d k)))) = [] := by
    rw [List.filter_eq_nil_iff]
    intro k hk
    simp [pyEq_refl]
  constructor
  · simp [Diff.get_changes, h1, h2]
  · simp [FindChanges.get_changes, h1, h2]

/-- C8: for records with disjoint key sets, get_changes (diff.py) emits
exactly len(d2) Added events, exactly len(d1) Deleted events, and no Changed
events. -/
theorem get_changes_disjoint_counts : ∀ d1 d2 : Record,
    (dkeys d1).all (fun k => !(dhasKey d2 k)) = true →
    (Diff.get_changes d1 d2).countP (fun e => e.1 == "added") = d2.length ∧
    (Diff.get_changes d1 d2).countP (fun e => e.1 == "deleted") = d1.length ∧
    (Diff.get_changes d1 d2).countP (fun e => e.1 == "changed") = 0 := by
  intro d1 d2 h
  rw [List.all_eq_true] at h
  have hd : ∀ k ∈ dkeys d1, dhasKey d2 k = false := by
    intro k hk
    have := h k hk
    simpa using this
  have hrev : ∀ k ∈ dkeys d2, dhasKey d1 k = false := by
    intro k hk
    cases hc : dhasKey d1 k with
    | false => rfl
    | true =>
      have hk1 : k ∈ dkeys d1 := (dhasKey_iff_mem d1 k).mp hc
      have := hd k hk1
      rw [(dhasKey_iff_mem d2 k).mpr hk] at this
      exact absurd this (by simp)
  have f1 : ((dkeys d2).filter (fun k => !(dhasKey d1 k))) = dkeys d2 := by
    rw [List.filter_eq_self]
    intro k hk
    simp [hrev k hk]
  have f2 : ((dkeys d1).filter (fun k => !(dhasKey d2 k))) = dkeys d1 := by
    rw [List.filter_eq_self]
    intro k hk
    simp [hd k hk]
  have f3 : ((dkeys d2).filter
      (fun k => dhasKey d1 k && !(pyEq (getv d1 k) (getv d2 k)))) = [] := by
    rw [List.filter_eq_nil_iff]
    intro k hk
    simp [hrev k hk]
  have hlen2 : (dkeys d2).length = d2.length := by simp [dkeys]
  have hlen1 : (dkeys d1).length = d1.length := by simp [dkeys]
  unfold Diff.get_changes
  rw [f1, f2, f3]
  simp only [List.map_nil, List.append_nil, List.countP_append, List.countP_map]
  refine ⟨?_, ?_, ?_⟩
  · rw [← hlen2]
    have c1 : ((dkeys d2).countP
        ((fun e : String × String × Option Value => e.1 == "added") ∘
          (fun k => ("added", k, some (getv d2 k))))) = (dkeys d2).length :=
      List.countP_eq_length.mpr (by
        intro a _
        show (("added" : String) == "added") = true
        decide)
    have c2 : ((dkeys d1).countP
        ((fun e : String × String × Option Value => e.1 == "added") ∘
          (fun k => ("deleted", k, (none : Option Value))))) = 0 := by
      rw [List.countP_eq_zero]
      intro a _
      show ¬(("deleted" : String) == "added") = true
      decide
    omega
  · rw [← hlen1]
    have c1 : ((dkeys d2).countP
        ((fun e : String × String × Option Value => e.1 == "deleted") ∘
          (fun k => ("added", k, some (getv d2 k))))) = 0 := by
      rw [List.countP_eq_zero]
      intro a _
      show ¬(("added" : String) == "deleted") = true
      decide
    have c2 : ((dkeys d1).countP
        ((fun e : String × String × Option Value => e.1 == "deleted") ∘
          (fun k => ("deleted", k, (none : Option Value))))) = (dkeys d1).length :=
      List.countP_eq_length.mpr (by
        intro a _
        show (("deleted" : String) == "deleted") = true
        decide)
    omega
  · have c1 : ((dkeys d2).countP
        ((fun e : String × String × Option Value => e.1 == "changed") ∘
          (fun k => ("added", k, some (getv d2 k))))) = 0 := by
      rw [List.countP_eq_zero]
      intro a _
      show ¬(("added" : String) == "changed") = true
      decide
    have c2 : ((dkeys d1).countP
        ((fun e : String × String × Option Value => e.1 == "changed") ∘
          (fun k => ("deleted", k, (none : Option Value))))) = 0 := by
      rw [List.countP_eq_zero]
      intro a _
      show ¬(("deleted" : String) == "changed") = true
      decide
    omega

/-- Witness for C8 at the concrete disjoint records ("a" ↦ 1) and
("b" ↦ 2). -/
theorem get_changes_disjoint_counts_witness :
    (Diff.get_changes [("a", Value.int 1)] [("b", Value.int 2)]).countP
      (fun e => e.1 == "added") = 1 ∧
    (Diff.get_changes [("a", Value.int 1)] [("b", Value.int 2)]).countP
      (fun e => e.1 == "deleted") = 1 ∧
    (Diff.get_changes [("a", Value.int 1)] [("b", Value.int 2)]).countP
      (fun e => e.1 == "changed") = 0 :=
  get_changes_disjoint_counts [("a", Value.int 1)] [("b", Value.int 2)] (by decide)

/-- C5: an event is emitted by get_changes (diff.py) exactly when it is an
Added event for a key of d2 absent from d1 carrying the new value, a Deleted
event for a key of d1 absent from d2 carrying no value, or a Changed event
for a key present in both whose values differ under native (non-coerced)
equality, carrying the new value; keys present in both with equal values
emit nothing. -/
theorem get_changes_characterization :
    ∀ (d1 d2 : Record) (tag k : String) (ov : Option Value),
      ((tag, k, ov) ∈ Diff.get_changes d1 d2) ↔
        ((tag = "added" ∧ dhasKey d2 k = true ∧ dhasKey d1 k = false ∧
            ov = some (getv d2 k)) ∨
         (tag = "deleted" ∧ dhasKey d1 k = true ∧ dhasKey d2 k = false ∧
            ov = none) ∨
         (tag = "changed" ∧ dhasKey d1 k = true ∧ dhasKey d2 k = true ∧
            pyEq (getv d1 k) (getv d2 k) = false ∧ ov = some (getv d2 k))) := by
  intro d1 d2 tag k ov
  unfold Diff.get_changes
  simp only [List.mem_append, List.mem_map, List.mem_filter, Prod.mk.injEq]
  constructor
  · rintro ((⟨a, ⟨ha, hf⟩, ht, hk, hv⟩ | ⟨a, ⟨ha, hf⟩, ht, hk, hv⟩) |
      ⟨a, ⟨ha, hf⟩, ht, hk, hv⟩)
    · subst ht; subst hk; subst hv
      refine Or.inl ⟨rfl, (dhasKey_iff_mem d2 a).mpr ha, ?_, rfl⟩
      simpa using hf
    · subst ht; subst hk; subst hv
      refine Or.inr (Or.inl ⟨rfl, (dhasKey_iff_mem d1 a).mpr ha, ?_, rfl⟩)
      simpa using hf
    · subst ht; subst hk; subst hv
      rw [Bool.and_eq_true] at hf
      refine Or.inr (Or.inr ⟨rfl, hf.1, (dhasKey_iff_mem d2 a).mpr ha, ?_, rfl⟩)
      simpa using hf.2
  · rintro (⟨ht, h2, h1, hv⟩ | ⟨ht, h1, h2, hv⟩ | ⟨ht, h1, h2, hne, hv⟩)
    · subst ht; subst hv
      exact Or.inl (Or.inl
        ⟨k, ⟨(dhasKey_iff_mem d2 k).mp h2, by simp [h1]⟩, rfl, rfl, rfl⟩)
    · subst ht; subst hv
      exact Or.inl (Or.inr
        ⟨k, ⟨(dhasKey_iff_mem d1 k).mp h1, by simp [h2]⟩, rfl, rfl, rfl⟩)
    · subst ht; subst hv
      exact Or.inr
        ⟨k, ⟨(dhasKey_iff_mem d2 k).mp h2, by simp [h1, hne]⟩, rfl, rfl, rfl⟩

/-- C6: in Mode A (print_item_changes), a commit whose snapshot lacks the
item is skipped with no event and no state change; a commit where the item
is present but diffs empty against the last-seen record emits nothing and
keeps the last-seen record; a commit with a nonempty diff emits one
timestamped block and updates the last-seen record; and on the spec's
scenario S1, S2, S3 the trace for "x" is one block after S1, one after S2,
and nothing after S3. -/
theorem mode_a_trace :
    (∀ (item : String) (last : Record) (c : FindChanges.Commit)
        (rest : List FindChanges.Commit),
      dlookup c.snapshot item = none →
      FindChanges.print_item_changes item last (c :: rest) =
        FindChanges.print_item_changes item last rest) ∧
    (∀ (item : String) (last : Record) (c : FindChanges.Commit)
        (rest : List FindChanges.Commit) (r2 : Record),
      dlookup c.snapshot item = some r2 →
      FindChanges.get_changes last r2 = [] →
      FindChanges.print_item_changes item last (c :: rest) =
        FindChanges.print_item_changes item last rest) ∧
    (∀ (item : String) (last : Record) (c : FindChanges.Commit)
        (rest : List FindChanges.Commit) (r2 : Record),
      dlookup c.snapshot item = some r2 →
      FindChanges.get_changes last r2 ≠ [] →
      FindChanges.print_item_changes item last (c :: rest) =
        (c.timestamp, FindChanges.get_changes last r2) ::
          FindChanges.print_item_changes item r2 rest) ∧
    FindChanges.print_item_changes "x" [] [commitS1, commitS2, commitS3] =
      [("t1", [("name", "x"), ("v", "1")]), ("t2", [("v", "1 -> 2")])] := by
  refine ⟨?_, ?_, ?_, ?_⟩
  · intro item last c rest h
    simp [FindChanges.print_item_changes, h]
  · intro item last c rest r2 h hgc
    simp [FindChanges.print_item_changes, h, hgc]
  · intro item last c rest r2 h hne
    cases hgc : FindChanges.get_changes last r2 with
    | nil => exact absurd hgc hne
    | cons p ps => simp [FindChanges.print_item_changes, h, hgc]
  · decide

/-- Witness for C6: commit S3's snapshot lacks "x", so the commit is
skipped. -/
theorem mode_a_trace_witness :
    FindChanges.print_item_changes "x" [] [commitS3] =
      FindChanges.print_item_changes "x" [] [] :=
  mode_a_trace.1 "x" [] commitS3 [] rfl

/-- C2 counterexample: walking commits (x present), (x absent), (x absent),
Mode B emits a Deleted event for x on the second commit only; on the third
commit, x having been dropped from the rolling map by the wholesale
replacement, no Deleted event is emitted — the claim's repeated flagging
does not happen. -/
theorem mode_b_no_repeat_deletion_cex :
    FindChanges.print_all_changes ["last_edit"] [] [commitD1, commitD2, commitD3] =
      some [[], [FindChanges.Event.deletedItem "x"], []] ∧
    FindChanges.Event.deletedItem "x" ∉
      (((FindChanges.print_all_changes ["last_edit"] []
          [commitD1, commitD2, commitD3]).getD []).getD 2 []) := by decide

/-- C2 amended: when an item tracked in the (post-rename) rolling state is
absent from the current snapshot a Deleted-item event is emitted for it at
that commit; but the rolling map is then replaced wholesale by the current
snapshot, so the item is no longer tracked, and on a later commit with no
detected renames an untracked item yields no Deleted event — the deletion is
not re-flagged while the item stays absent. -/
theorem mode_b_deletion_spec :
    (∀ (skip : List String) (m snap : List (String × Record)) (item : String),
      dhasKey m item = true → dhasKey snap item = false →
      FindChanges.Event.deletedItem item ∈ FindChanges.itemPhase skip m snap) ∧
    (∀ (skip : List String) (last : List (String × Record))
        (c : FindChanges.Commit) (evs : List FindChanges.Event)
        (last2 : List (String × Record)),
      FindChanges.commitStep skip last c = some (evs, last2) →
      last2 = c.snapshot) ∧
    (∀ (skip : List String) (last : List (String × Record))
        (c : FindChanges.Commit) (evs : List FindChanges.Event)
        (last2 : List (String × Record)) (item : String),
      FindChanges.commitStep skip last c = some (evs, last2) →
      FindChanges.find_renames c.diffLines = some [] →
      dhasKey last item = false →
      FindChanges.Event.deletedItem item ∉ evs) := by
  refine ⟨?_, ?_, ?_⟩
  · intro skip m snap item hm hs
    have hmem : item ∈ dkeys m := (dhasKey_iff_mem m item).mp hm
    have hnone : dlookup snap item = none := by
      unfold dhasKey at hs
      cases h : dlookup snap item with
      | none => rfl
      | some r => rw [h] at hs; simp at hs
    unfold FindChanges.itemPhase
    rw [List.mem_flatMap]
    refine ⟨item, hmem, ?_⟩
    unfold FindChanges.itemEvents
    rw [hnone]
    simp
  · intro skip last c evs last2 h
    unfold FindChanges.commitStep at h
    split at h
    · exact absurd h (by simp)
    · split at h
      · exact absurd h (by simp)
      · simp at h
        exact h.2.symm
  · intro skip last c evs last2 item h hf hk
    unfold FindChanges.commitStep at h
    split at h
    · exact absurd h (by simp)
    · rename_i rs heq
      split at h
      · exact absurd h (by simp)
      · rename_i revs m2 heq2
        rw [hf] at heq
        injection heq with hrs
        subst hrs
        have h0 : FindChanges.renamePhase last ([] : List (String × String)) =
            some ([], last) := rfl
        rw [h0] at heq2
        injection heq2 with hp
        rw [Prod.mk.injEq] at hp
        obtain ⟨hrev, hm2⟩ := hp
        subst hrev
        subst hm2
        simp only [List.nil_append] at h
        injection h with hp2
        rw [Prod.mk.injEq] at hp2
        obtain ⟨hev, _⟩ := hp2
        intro hmem
        rw [← hev] at hmem
        unfold FindChanges.itemPhase at hmem
        rw [List.mem_flatMap] at hmem
        obtain ⟨a, hamem, hin⟩ := hmem
        unfold FindChanges.itemEvents at hin
        cases hl : dlookup c.snapshot a with
        | none =>
          rw [hl] at hin
          simp at hin
          rw [← hin] at hamem
          rw [← dhasKey_iff_mem last item] at hamem
          rw [hamem] at hk
          exact absurd hk (by simp)
        | some r2 =>
          rw [hl] at hin
          rw [List.mem_filterMap] at hin
          obtain ⟨p, _, hsome⟩ := hin
          by_cases hc : skip.contains p.1
          · rw [if_pos hc] at hsome
            exact absurd hsome (by simp)
          · rw [if_neg hc] at hsome
            simp at hsome

/-- Witness for C2 amended: the item "x" tracked by the rolling state and
absent from the empty snapshot yields a Deleted event. -/
theorem mode_b_deletion_spec_witness :
    FindChanges.Event.deletedItem "x" ∈
      FindChanges.itemPhase [] [("x", ([] : Record))] [] :=
  mode_b_deletion_spec.1 [] [("x", [])] [] "x" rfl rfl

/-- C4: processing one detected rename (old, new) executes
last_by_name[new] = last_by_name[old] before the remaining renames, and
immediately afterwards the rolling map binds new to the record previously
bound to old; and the per-item deletion/attribute-diff loop of a commit is
computed on the post-rename rolling map, i.e. every rename is applied before
item deletions and attribute diffs are processed. -/
theorem rename_reassigns_state :
    (∀ (m : List (String × Record)) (o n : String)
        (rest : List (String × String)) (r : Record),
      dlookup m o = some r →
      FindChanges.renamePhase m ((o, n) :: rest) =
        (FindChanges.renamePhase (dinsert m n r) rest).map
          (fun p => (FindChanges.Event.rename o n :: p.1, p.2)) ∧
      dlookup (dinsert m n r) n = some r) ∧
    (∀ (skip : List String) (last : List (String × Record))
        (c : FindChanges.Commit) (rs : List (String × String))
        (revs : List FindChanges.Event) (m2 : List (String × Record)),
      FindChanges.find_renames c.diffLines = some rs →
      FindChanges.renamePhase last rs = some (revs, m2) →
      FindChanges.commitStep skip last c =
        some (revs ++ FindChanges.itemPhase skip m2 c.snapshot, c.snapshot)) := by
  constructor
  · intro m o n rest r h
    constructor
    · cases hr : FindChanges.renamePhase (dinsert m n r) rest with
      | none => simp [FindChanges.renamePhase, h, hr]
      | some p =>
        obtain ⟨evs, m2⟩ := p
        simp [FindChanges.renamePhase, h, hr]
    · rw [dlookup_dinsert]
      simp
  · intro skip last c rs revs m2 hf hr
    simp [FindChanges.commitStep, hf, hr]

/-- Witness for C4 at the rolling state ("a" ↦ empty record) and the single
rename ("a", "b"). -/
theorem rename_reassigns_state_witness :
    (FindChanges.renamePhase [("a", ([] : Record))] [("a", "b")] =
      (FindChanges.renamePhase (dinsert [("a", ([] : Record))] "b" []) []).map
        (fun p => (FindChanges.Event.rename "a" "b" :: p.1, p.2)) ∧
      dlookup (dinsert [("a", ([] : Record))] "b" []) "b" = some []) :=
  rename_reassigns_state.1 [("a", [])] "a" "b" [] [] rfl

/-- C10: when a detected rename's old name is not a key of the rolling
state, the rename loop fails with a key-lookup error (modelled as none)
rather than skipping the rename; and when every detected old name is
tracked, the loop completes, i.e. the error branch is unreachable. -/
theorem rename_keyerror :
    (∀ (m : List (String × Record)) (o n : String)
        (rest : List (String × String)),
      dlookup m o = none →
      FindChanges.renamePhase m ((o, n) :: rest) = none) ∧
    (∀ (rs : List (String × String)) (m : List (String × Record)),
      (∀ p ∈ rs, dhasKey m p.1 = true) →
      (FindChanges.renamePhase m rs).isSome = true) := by
  constructor
  · intro m o n rest h
    unfold FindChanges.renamePhase
    rw [h]
  · intro rs
    induction rs with
    | nil =>
      intro m _
      rfl
    | cons p rest ih =>
      intro m h
      obtain ⟨o, n⟩ := p
      have ho : dhasKey m o = true := h (o, n) (List.mem_cons_self _ _)
      obtain ⟨r, hr⟩ := Option.isSome_iff_exists.mp ho
      have hrest : ∀ q ∈ rest, dhasKey (dinsert m n r) q.1 = true := by
        intro q hq
        exact dhasKey_dinsert_of m n q.1 r (h q (List.mem_cons_of_mem _ hq))
      have hrec := ih (dinsert m n r) hrest
      cases hh : FindChanges.renamePhase (dinsert m n r) rest with
      | none => rw [hh] at hrec; simp at hrec
      | some pp =>
        obtain ⟨evs, m2⟩ := pp
        simp [FindChanges.renamePhase, hr, hh]

/-- Witness for C10: a rename whose old name "a" is missing from the empty
rolling state makes the rename loop fail. -/
theorem rename_keyerror_witness :
    FindChanges.renamePhase ([] : List (String × Record)) [("a", "b")] = none :=
  rename_keyerror.1 [] "a" "b" [] rfl

/-- C1 counterexample: in the raw diff cexDiffLines, lines 1 and 2 are an
adjacent deleted/added name pair with differing values — the loop body's own
guards extract the rename ("old_x", "new_x") from that pair — yet
find_renames returns the empty map, because the pair sits at an odd offset
and the stride-two pairing zip(lines[::2], lines[1::2]) never examines it. -/
theorem find_renames_cex :
    cexDiffLines.getD 1 "" = "-    \"name\": \"old_x\"," ∧
    cexDiffLines.getD 2 "" = "+    \"name\": \"new_x\"," ∧
    FindChanges.processPair "-    \"name\": \"old_x\"," "+    \"name\": \"new_x\"," =
      FindChanges.PairResult.rename "old_x" "new_x" ∧
    FindChanges.find_renames cexDiffLines = some [] := by decide

/-- Unfolding equation for findRenamesAux on a stride pair. -/
theorem findRenamesAux_cons (acc : List (String × String)) (l nl : String)
    (rest : List (String × String)) :
    FindChanges.findRenamesAux acc ((l, nl) :: rest) =
      match FindChanges.processPair l nl with
      | FindChanges.PairResult.skip => FindChanges.findRenamesAux acc rest
      | FindChanges.PairResult.crash => none
      | FindChanges.PairResult.rename a b =>
        FindChanges.findRenamesAux (if a ≠ b then dinsert acc a b else acc) rest :=
  rfl

/-- Unfolding equation for validRename. -/
theorem validRename_eq (l nl : String) :
    FindChanges.validRename (l, nl) =
      match FindChanges.processPair l nl with
      | FindChanges.PairResult.rename a b => if a ≠ b then some (a, b) else none
      | _ => none :=
  rfl

/-- lastRename on a cons whose tail already yields an answer. -/
theorem lastRename_cons_some (o : String) (p : String × String)
    (rest : List (String × String)) (n : String)
    (hl : FindChanges.lastRename o rest = some n) :
    FindChanges.lastRename o (p :: rest) = some n := by
  unfold FindChanges.lastRename
  rw [hl]

/-- lastRename on a cons whose tail yields nothing and whose head pair is
not a contributing rename. -/
theorem lastRename_cons_none_none (o : String) (p : String × String)
    (rest : List (String × String))
    (hl : FindChanges.lastRename o rest = none)
    (hv : FindChanges.validRename p = none) :
    FindChanges.lastRename o (p :: rest) = none := by
  unfold FindChanges.lastRename
  rw [hl, hv]

/-- lastRename on a cons whose tail yields nothing and whose head pair
contributes the rename q. -/
theorem lastRename_cons_none_some (o : String) (p : String × String)
    (rest : List (String × String)) (q : String × String)
    (hl : FindChanges.lastRename o rest = none)
    (hv : FindChanges.validRename p = some q) :
    FindChanges.lastRename o (p :: rest) =
      if q.1 = o then some q.2 else none := by
  unfold FindChanges.lastRename
  rw [hl, hv]

/-- The rename map built by findRenamesAux binds an old name to the new name
of the last contributing stride pair, falling back to the accumulator. -/
theorem findRenamesAux_lookup :
    ∀ (ps : List (String × String)) (acc m : List (String × String)),
      FindChanges.findRenamesAux acc ps = some m →
      ∀ o, dlookup m o =
        (FindChanges.lastRename o ps).elim (dlookup acc o) some := by
  intro ps
  induction ps with
  | nil =>
    intro acc m h o
    have h2 : some acc = some m := h
    injection h2 with hm
    subst hm
    rfl
  | cons p rest ih =>
    intro acc m h o
    obtain ⟨l, nl⟩ := p
    have h3 := h
    rw [findRenamesAux_cons] at h3
    cases hp : FindChanges.processPair l nl with
    | skip =>
      rw [hp] at h3
      have h4 : FindChanges.findRenamesAux acc rest = some m := h3
      have hvn : FindChanges.validRename (l, nl) = none := by
        rw [validRename_eq, hp]
      have hrec := ih acc m h4 o
      cases hl : FindChanges.lastRename o rest with
      | none =>
        rw [hl] at hrec
        rw [lastRename_cons_none_none o (l, nl) rest hl hvn]
        exact hrec
      | some nn =>
        rw [hl] at hrec
        rw [lastRename_cons_some o (l, nl) rest nn hl]
        exact hrec
    | crash =>
      rw [hp] at h3
      have h4 : (none : Option (List (String × String))) = some m := h3
      exact absurd h4 (by simp)
    | rename a b =>
      rw [hp] at h3
      have h4 : FindChanges.findRenamesAux
          (if a ≠ b then dinsert acc a b else acc) rest = some m := h3
      by_cases hab : a = b
      · subst hab
        rw [if_neg (by simp)] at h4
        have hvn : FindChanges.validRename (l, nl) = none := by
          rw [validRename_eq, hp]
          simp
        have hrec := ih acc m h4 o
        cases hl : FindChanges.lastRename o rest with
        | none =>
          rw [hl] at hrec
          rw [lastRename_cons_none_none o (l, nl) rest hl hvn]
          exact hrec
        | some nn =>
          rw [hl] at hrec
          rw [lastRename_cons_some o (l, nl) rest nn hl]
          exact hrec
      · rw [if_pos hab] at h4
        have hvs : FindChanges.validRename (l, nl) = some (a, b) := by
          rw [validRename_eq, hp]
          simp [hab]
        have hrec := ih (dinsert acc a b) m h4 o
        cases hl : FindChanges.lastRename o rest with
        | none =>
          rw [hl] at hrec
          rw [lastRename_cons_none_some o (l, nl) rest (a, b) hl hvs]
          have hrec2 : dlookup m o = dlookup (dinsert acc a b) o := hrec
          rw [hrec2, dlookup_dinsert]
          by_cases hao : a = o
          · subst hao
            simp
          · have hoa : ¬o = a := fun hh => hao hh.symm
            simp [hao, hoa, Option.elim]
        | some nn =>
          rw [hl] at hrec
          rw [lastRename_cons_some o (l, nl) rest nn hl]
          exact hrec

/-- C1 amended: find_renames examines only stride-aligned line pairs
(lines[0]/lines[1], lines[2]/lines[3], ...); when it completes without
raising, its returned map binds an old name o to the new name of the last
stride-aligned deleted/added name pair for o whose two values differ, and to
nothing otherwise — so stride-aligned qualifying pairs produce exactly the
returned renames, while pairs at odd offsets and deleted/added pairs
differing only in fields other than name contribute no rename. -/
theorem find_renames_characterization :
    ∀ (lines : List String) (m : List (String × String)),
      FindChanges.find_renames lines = some m →
      ∀ o, dlookup m o =
        FindChanges.lastRename o (FindChanges.stridePairs lines) := by
  intro lines m h o
  have hrec := findRenamesAux_lookup (FindChanges.stridePairs lines) [] m h o
  cases hl : FindChanges.lastRename o (FindChanges.stridePairs lines) with
  | none =>
    rw [hl] at hrec
    exact hrec
  | some nn =>
    rw [hl] at hrec
    exact hrec

/-- Witness for C1 amended: on the stride-aligned diff alignedDiffLines the
characterization applies with the computed map ("a" ↦ "b"). -/
theorem find_renames_characterization_witness :
    dlookup [("a", "b")] "a" =
      FindChanges.lastRename "a" (FindChanges.stridePairs alignedDiffLines) :=
  find_renames_characterization alignedDiffLines [("a", "b")] (by decide) "a"

end DeviceConfig
